import Mathlib

/-!
Verification development for the Marabou search-and-deduction core:
a shallow embedding of `RowBoundTightener.cpp` and `SmtCore.cpp` over
exact rationals, together with theorems settling the specified
properties of those routines.

Doubles are modelled as rationals.  Configuration constants from
`GlobalConfiguration` (the comparison tolerance, the minimal
coefficient for tightening, the rounding constant, the saturation
iteration cap) are parameters, collected in `Config`.
-/

namespace Marabou

/-! ## FloatUtils and BoundManager (modelled from the spec) -/

namespace FloatUtils

/-- Modelled from the spec: `FloatUtils::isPositive` (FloatUtils.h is not among the
provided sources) holds when the value exceeds the fixed comparison tolerance. -/
def isPositive (eps x : ℚ) : Bool := decide (eps < x)

/-- Modelled from the spec: `FloatUtils::isZero` holds when the value lies within
the fixed comparison tolerance of zero. -/
def isZero (eps x : ℚ) : Bool := decide (|x| ≤ eps)

/-- Modelled from the spec: `FloatUtils::gt x y` holds when `x - y` exceeds the
fixed comparison tolerance (the spec says comparisons use a fixed tolerance). -/
def gt (eps x y : ℚ) : Bool := isPositive eps (x - y)

/-- Modelled from the spec: `FloatUtils::lt x y` is `FloatUtils::gt y x`. -/
def lt (eps x y : ℚ) : Bool := gt eps y x

end FloatUtils

/-- The `GlobalConfiguration` constants consumed by the row bound tightener.
`GlobalConfiguration.h` is not among the provided sources; the spec lists these
as configuration knobs read once at construction. -/
structure Config where
  eps : ℚ
  minCoeff : ℚ
  roundConst : ℚ
  satIters : Nat

/-- The variable bound tables read through `getLowerBound` and `getUpperBound`
in `RowBoundTightener`.  The tightener reads them through raw pointers into the
bound manager; both are modelled as one pair of total maps. -/
structure Bounds where
  lb : Nat → ℚ
  ub : Nat → ℚ

/-- Modelled from the spec: `RowBoundTightener::registerTighterLowerBound`
(declared in RowBoundTightener.h, not among the provided sources) forwards the
candidate to the bound manager, which accepts a new lower bound iff it strictly
improves on the current one under `FloatUtils::gt`, and reports 1 on acceptance
and 0 otherwise. -/
def registerTighterLowerBound (cfg : Config) (B : Bounds) (v : Nat) (value : ℚ) :
    Nat × Bounds :=
  if FloatUtils.gt cfg.eps value (B.lb v) then
    (1, { B with lb := Function.update B.lb v value })
  else
    (0, B)

/-- Modelled from the spec: `RowBoundTightener::registerTighterUpperBound`, the
upper-bound counterpart, accepting iff the candidate is `FloatUtils::lt` than
the current upper bound. -/
def registerTighterUpperBound (cfg : Config) (B : Bounds) (v : Nat) (value : ℚ) :
    Nat × Bounds :=
  if FloatUtils.lt cfg.eps value (B.ub v) then
    (1, { B with ub := Function.update B.ub v value })
  else
    (0, B)

/-! ## Rows -/

/-- One `(variable, coefficient)` entry of a row (`TableauRow::Entry`, and one
entry of a `SparseUnsortedList` in the constraint-matrix pass). -/
structure RowEntry where
  var : Nat
  coefficient : ℚ

/-- A tableau row `y = sum ci xi + scalar` with `lhs` the basic variable `y`
(`TableauRow` in the sources). -/
structure TableauRow where
  scalar : ℚ
  lhs : Nat
  row : List RowEntry

/-- One row of the constraint matrix `A x = b`: the sparse entries of `A`
together with the right-hand-side value `b[row]`. -/
structure ConstraintRow where
  scalar : ℚ
  entries : List RowEntry

/-- The sign flags stored in `_ciSign`. -/
inductive CiSign
  | zero
  | positive
  | negative
deriving DecidableEq

/-! ## tightenOnSingleInvertedBasisRow -/

/-- The per-entry precomputation of `tightenOnSingleInvertedBasisRow`: the sign
flag `_ciSign[i]` and the products `_ciTimesLb[i] = ci * lb(xi)` and
`_ciTimesUb[i] = ci * ub(xi)`.  Entries with `FloatUtils::isZero` coefficients
get sign `ZERO` and zero products. -/
def invRowCiData (cfg : Config) (B : Bounds) (e : RowEntry) : CiSign × ℚ × ℚ :=
  if FloatUtils.isZero cfg.eps e.coefficient then
    (CiSign.zero, 0, 0)
  else
    ((if FloatUtils.isPositive cfg.eps e.coefficient then CiSign.positive
      else CiSign.negative),
     e.coefficient * B.lb e.var, e.coefficient * B.ub e.var)

/-- The lower bound computed for the basic variable `y` by the first pass of
`tightenOnSingleInvertedBasisRow`: starting from the row scalar, every entry
contributes `_ciTimesLb[i]` when its sign is `POSITIVE` and `_ciTimesUb[i]`
otherwise (entries with sign `ZERO` contribute their zero products). -/
def invRowYLower (cfg : Config) (B : Bounds) (row : TableauRow) : ℚ :=
  row.scalar +
    (row.row.map (fun e =>
      let d := invRowCiData cfg B e
      if d.1 = CiSign.positive then d.2.1 else d.2.2)).sum

/-- The upper bound computed for the basic variable `y` by the first pass of
`tightenOnSingleInvertedBasisRow`: the mirror image of `invRowYLower`. -/
def invRowYUpper (cfg : Config) (B : Bounds) (row : TableauRow) : ℚ :=
  row.scalar +
    (row.row.map (fun e =>
      let d := invRowCiData cfg B e
      if d.1 = CiSign.positive then d.2.2 else d.2.1)).sum

/-- The quantity `auxLb` of `tightenOnSingleInvertedBasisRow`: the (possibly
updated) lower bound of `y` minus the scalar, minus every entry contribution
(`_ciTimesLb[i]` for `NEGATIVE` entries, `_ciTimesUb[i]` otherwise). -/
def invRowAuxLb (cfg : Config) (B : Bounds) (row : TableauRow) (ylb : ℚ) : ℚ :=
  ylb - row.scalar -
    (row.row.map (fun e =>
      let d := invRowCiData cfg B e
      if d.1 = CiSign.negative then d.2.1 else d.2.2)).sum

/-- The quantity `auxUb` of `tightenOnSingleInvertedBasisRow`. -/
def invRowAuxUb (cfg : Config) (B : Bounds) (row : TableauRow) (yub : ℚ) : ℚ :=
  yub - row.scalar -
    (row.row.map (fun e =>
      let d := invRowCiData cfg B e
      if d.1 = CiSign.negative then d.2.2 else d.2.1)).sum

/-- The final loop of `tightenOnSingleInvertedBasisRow` over the non-basic
variables.  Each list element carries the row entry together with its
precomputed `(_ciSign[i], _ciTimesLb[i], _ciTimesUb[i])`.  An entry is skipped
when its sign is `ZERO` or `FloatUtils::lt(abs(ci), MINIMAL_COEFFICIENT_FOR_TIGHTENING)`
holds; otherwise the bounds for `xi` are derived from `auxLb`/`auxUb`,
registered with the rounding constant applied, and a crossing pair raises
`InfeasibleQueryException` (modelled as `Except.error ()`). -/
def tightenInvRowXiLoop (cfg : Config) :
    List (RowEntry × CiSign × ℚ × ℚ) → ℚ → ℚ → Nat → Bounds →
      Except Unit (Nat × Bounds)
  | [], _, _, result, B => Except.ok (result, B)
  | (e, s, cLb, cUb) :: rest, auxLb, auxUb, result, B =>
    if s = CiSign.zero ∨ FloatUtils.lt cfg.eps |e.coefficient| cfg.minCoeff = true then
      tightenInvRowXiLoop cfg rest auxLb auxUb result B
    else
      let lb0 := if s = CiSign.negative then auxLb + cLb else auxLb + cUb
      let ub0 := if s = CiSign.negative then auxUb + cUb else auxUb + cLb
      let lb1 := lb0 / e.coefficient
      let ub1 := ub0 / e.coefficient
      let lb2 := if s = CiSign.negative then ub1 else lb1
      let ub2 := if s = CiSign.negative then lb1 else ub1
      let p1 := registerTighterLowerBound cfg B e.var (lb2 - cfg.roundConst)
      let p2 := registerTighterUpperBound cfg p1.2 e.var (ub2 + cfg.roundConst)
      if FloatUtils.gt cfg.eps (p2.2.lb e.var) (p2.2.ub e.var) then
        Except.error ()
      else
        tightenInvRowXiLoop cfg rest auxLb auxUb (result + p1.1 + p2.1) p2.2

/-- `RowBoundTightener::tightenOnSingleInvertedBasisRow`: tighten once for the
basic variable `y` (registering with the rounding constant and raising
`InfeasibleQueryException` on a crossing pair), then once for every non-basic
variable through `tightenInvRowXiLoop`.  The `_ciSign`, `_ciTimesLb` and
`_ciTimesUb` arrays are filled from the bounds at entry, before any
registration; `auxLb`/`auxUb` read the bound of `y` after its registration. -/
def tightenOnSingleInvertedBasisRow (cfg : Config) (row : TableauRow) (B : Bounds) :
    Except Unit (Nat × Bounds) :=
  let p1 := registerTighterLowerBound cfg B row.lhs
    (invRowYLower cfg B row - cfg.roundConst)
  let p2 := registerTighterUpperBound cfg p1.2 row.lhs
    (invRowYUpper cfg B row + cfg.roundConst)
  if FloatUtils.gt cfg.eps (p2.2.lb row.lhs) (p2.2.ub row.lhs) then
    Except.error ()
  else
    let data := row.row.map (fun e => (e, invRowCiData cfg B e))
    tightenInvRowXiLoop cfg data
      (invRowAuxLb cfg B row (p2.2.lb row.lhs))
      (invRowAuxUb cfg B row (p2.2.ub row.lhs))
      (p1.1 + p2.1) p2.2

/-! ## tightenOnSingleConstraintRow -/

/-- The per-entry precomputation of `tightenOnSingleConstraintRow`: the sparse
row has no explicit zero entries, so the sign flag is `POSITIVE` or `NEGATIVE`
by `FloatUtils::isPositive`; alongside it the products `ci * lb` and `ci * ub`.
Indices absent from the sparse row keep sign `ZERO` and zero products in the
arrays, hence contribute nothing below; sparse indices are assumed distinct. -/
def constraintRowCiData (cfg : Config) (B : Bounds) (e : RowEntry) :
    CiSign × ℚ × ℚ :=
  ((if FloatUtils.isPositive cfg.eps e.coefficient then CiSign.positive
    else CiSign.negative),
   e.coefficient * B.lb e.var, e.coefficient * B.ub e.var)

/-- The quantity `auxLb` of `tightenOnSingleConstraintRow`: `b[row]` minus each
contribution (`_ciTimesLb` for `NEGATIVE` entries, `_ciTimesUb` otherwise);
the loop over all column indices reduces to the sparse entries because absent
indices have zero products. -/
def constraintRowAuxLb (cfg : Config) (B : Bounds) (row : ConstraintRow) : ℚ :=
  row.scalar -
    (row.entries.map (fun e =>
      let d := constraintRowCiData cfg B e
      if d.1 = CiSign.negative then d.2.1 else d.2.2)).sum

/-- The quantity `auxUb` of `tightenOnSingleConstraintRow`. -/
def constraintRowAuxUb (cfg : Config) (B : Bounds) (row : ConstraintRow) : ℚ :=
  row.scalar -
    (row.entries.map (fun e =>
      let d := constraintRowCiData cfg B e
      if d.1 = CiSign.negative then d.2.2 else d.2.1)).sum

/-- The loop of `tightenOnSingleConstraintRow` over the sparse entries: adjust
`auxLb`/`auxUb` to remove `xi`, skip the entry when
`FloatUtils::lt(abs(ci), MINIMAL_COEFFICIENT_FOR_TIGHTENING)` holds, otherwise
divide by `ci` (swapping on a negative sign), register the results with no
rounding constant, and raise `InfeasibleQueryException` on a crossing pair. -/
def tightenConstraintRowLoop (cfg : Config) :
    List (RowEntry × CiSign × ℚ × ℚ) → ℚ → ℚ → Nat → Bounds →
      Except Unit (Nat × Bounds)
  | [], _, _, result, B => Except.ok (result, B)
  | (e, s, cLb, cUb) :: rest, auxLb, auxUb, result, B =>
    let lb0 := if s = CiSign.negative then auxLb + cLb else auxLb + cUb
    let ub0 := if s = CiSign.negative then auxUb + cUb else auxUb + cLb
    if FloatUtils.lt cfg.eps |e.coefficient| cfg.minCoeff = true then
      tightenConstraintRowLoop cfg rest auxLb auxUb result B
    else
      let lb1 := lb0 / e.coefficient
      let ub1 := ub0 / e.coefficient
      let lb2 := if s = CiSign.negative then ub1 else lb1
      let ub2 := if s = CiSign.negative then lb1 else ub1
      let p1 := registerTighterLowerBound cfg B e.var lb2
      let p2 := registerTighterUpperBound cfg p1.2 e.var ub2
      if FloatUtils.gt cfg.eps (p2.2.lb e.var) (p2.2.ub e.var) then
        Except.error ()
      else
        tightenConstraintRowLoop cfg rest auxLb auxUb (result + p1.1 + p2.1) p2.2

/-- `RowBoundTightener::tightenOnSingleConstraintRow`. -/
def tightenOnSingleConstraintRow (cfg : Config) (row : ConstraintRow) (B : Bounds) :
    Except Unit (Nat × Bounds) :=
  let data := row.entries.map (fun e => (e, constraintRowCiData cfg B e))
  tightenConstraintRowLoop cfg data
    (constraintRowAuxLb cfg B row) (constraintRowAuxUb cfg B row) 0 B

/-! ## Passes and saturation -/

/-- `RowBoundTightener::onePassOverInvertedBasisRows`: accumulate the new-bound
counts of `tightenOnSingleInvertedBasisRow` over all rows, short-circuiting on
an exception. -/
def onePassOverInvertedBasisRows (cfg : Config) :
    List TableauRow → Nat → Bounds → Except Unit (Nat × Bounds)
  | [], acc, B => Except.ok (acc, B)
  | r :: rs, acc, B =>
    match tightenOnSingleInvertedBasisRow cfg r B with
    | Except.error e => Except.error e
    | Except.ok (nb, B1) => onePassOverInvertedBasisRows cfg rs (acc + nb) B1

/-- `RowBoundTightener::onePassOverConstraintMatrix`: accumulate the new-bound
counts of `tightenOnSingleConstraintRow` over all rows of `A`. -/
def onePassOverConstraintMatrix (cfg : Config) :
    List ConstraintRow → Nat → Bounds → Except Unit (Nat × Bounds)
  | [], acc, B => Except.ok (acc, B)
  | r :: rs, acc, B =>
    match tightenOnSingleConstraintRow cfg r B with
    | Except.error e => Except.error e
    | Except.ok (nb, B1) => onePassOverConstraintMatrix cfg rs (acc + nb) B1

/-- The do-while saturation driver shared by the examine routines:
run `pass`, decrement `maxIters`, and repeat while the remaining iteration
budget is nonzero and the pass learned new bounds.  Alongside the final bounds
it returns the number of passes performed, so that the iteration behaviour is
observable in theorem statements.  On `maxIters = 0` the C++ unsigned
decrement would wrap; the spec requires the iteration cap to be positive. -/
def saturationLoop (pass : Bounds → Except Unit (Nat × Bounds)) (maxIters : Nat)
    (B : Bounds) (count : Nat) : Except Unit (Bounds × Nat) :=
  match pass B with
  | Except.error e => Except.error e
  | Except.ok (nb, B1) =>
    if h : maxIters - 1 ≠ 0 ∧ 0 < nb then
      saturationLoop pass (maxIters - 1) B1 (count + 1)
    else
      Except.ok (B1, count + 1)
termination_by maxIters
decreasing_by omega

/-- `RowBoundTightener::examineConstraintMatrix`: iterate
`onePassOverConstraintMatrix` with budget `ROW_BOUND_TIGHTENER_SATURATION_ITERATIONS`
when `untilSaturation` holds and `1` otherwise. -/
def examineConstraintMatrix (cfg : Config) (rows : List ConstraintRow)
    (untilSaturation : Bool) (B : Bounds) : Except Unit (Bounds × Nat) :=
  saturationLoop (fun b => onePassOverConstraintMatrix cfg rows 0 b)
    (if untilSaturation then cfg.satIters else 1) B 0

/-- `RowBoundTightener::examineImplicitInvertedBasisMatrix`: the rows are
assembled from the forward-transformation oracle (abstracted here as the
`rows` input) and then handed to the same saturation driver over
`onePassOverInvertedBasisRows`. -/
def examineImplicitInvertedBasisMatrix (cfg : Config) (rows : List TableauRow)
    (untilSaturation : Bool) (B : Bounds) : Except Unit (Bounds × Nat) :=
  saturationLoop (fun b => onePassOverInvertedBasisRows cfg rows 0 b)
    (if untilSaturation then cfg.satIters else 1) B 0

/-- `RowBoundTightener::examineInvertedBasisMatrix`: the rows are computed from
the explicit basis inverse (abstracted here as the `rows` input) and handed to
the saturation driver inside a try block whose catch-all deletes the explicit
inverse and rethrows; the normal path deletes it after the loop.  The boolean
component records whether `delete[] invB` ran before the call returned. -/
def examineInvertedBasisMatrix (cfg : Config) (rows : List TableauRow)
    (untilSaturation : Bool) (B : Bounds) : Except Unit (Bounds × Nat) × Bool :=
  match saturationLoop (fun b => onePassOverInvertedBasisRows cfg rows 0 b)
      (if untilSaturation then cfg.satIters else 1) B 0 with
  | Except.error e => (Except.error e, true)
  | Except.ok r => (Except.ok r, true)

/-! ## SmtCore

The engine behind the `IEngine` interface is an external collaborator of the
decision core; its state is an abstract type `E` and its operations abstract
functions.  Splits and piecewise-linear constraints are abstract types `Split`
and `C`; constraint activity and the violation-count map live in the core
state. -/

/-- The slice of the `IEngine` interface consumed by `SmtCore`. -/
structure IEngine (E Split : Type) where
  applySplit : E → Split → E
  consistentBounds : E → Bool
  restoreState : E → E → E
  preContextPushHook : E → E
  postContextPopHook : E → E
  explainSimplexFailure : E → E
  shouldProduceProofs : Bool

/-- `SmtStackEntry`: the active split, the remaining alternative splits, the
valid splits implied at this level, and the engine state snapshot taken just
before the split. -/
structure SmtStackEntry (E Split : Type) where
  activeSplit : Split
  alternativeSplits : List Split
  impliedValidSplits : List Split
  engineState : E

/-- The mutable state of `SmtCore`.  The stack is kept with its head being the
newest entry (the C++ `List` back); statistics, the debugging solution and the
UNSAT-certificate pointers are omitted. -/
structure SmtCoreState (E Split C : Type) where
  stack : List (SmtStackEntry E Split)
  contextLevel : Nat
  engine : E
  impliedValidSplitsAtRoot : List Split
  needToSplit : Bool
  constraintForSplitting : Option C
  constraintActive : C → Bool
  constraintToViolationCount : C → Nat
  numRejectedPhasePatternProposal : Nat
  stateId : Nat

/-- `SmtCore::getStackDepth` (the body; its ASSERT states the decision-stack
depth equals the context level outside SnC mode). -/
def getStackDepth {E Split C : Type} (s : SmtCoreState E Split C) : Nat :=
  s.stack.length

/-- `SmtCore::performSplit`.  After resetting the rejection counter, an
inactive candidate clears the split state and returns.  Otherwise the case
splits are obtained, the constraint deactivated, the engine state snapshotted,
the context pushed (after the pre-push hook), the first split applied, and a
new stack entry created holding the remaining splits as alternatives.  The
empty-split-list arm is unreachable under the ASSERT that a constraint has at
least two cases. -/
def performSplit {E Split C : Type} [DecidableEq C] (eng : IEngine E Split)
    (getCaseSplits : C → List Split) (s : SmtCoreState E Split C) :
    SmtCoreState E Split C :=
  match s.constraintForSplitting with
  | none => s
  | some c =>
    let s0 := { s with numRejectedPhasePatternProposal := 0 }
    if s0.constraintActive c = false then
      { s0 with
        needToSplit := false
        constraintToViolationCount := Function.update s0.constraintToViolationCount c 0
        constraintForSplitting := none }
    else
      match getCaseSplits c with
      | [] => s0
      | first :: rest =>
        let s1 := { s0 with
          needToSplit := false
          constraintActive := Function.update s0.constraintActive c false }
        let snapshot := s1.engine
        let e1 := eng.preContextPushHook s1.engine
        let e2 := eng.applySplit e1 first
        let entry : SmtStackEntry E Split :=
          { activeSplit := first
            alternativeSplits := rest
            impliedValidSplits := []
            engineState := snapshot }
        { s1 with
          stack := entry :: s1.stack
          contextLevel := s1.contextLevel + 1
          engine := e2
          stateId := s1.stateId + 1
          constraintForSplitting := none }

/-- The measure for the `popSplit` loop: every frame counts one plus the
number of its remaining alternatives. -/
def smtMeasure {E Split : Type} (stack : List (SmtStackEntry E Split)) : Nat :=
  (stack.map (fun en => en.alternativeSplits.length + 1)).sum

/-- The loop body of `SmtCore::popSplit`, fusing the inner loop that discards
entries with exhausted alternatives (one context pop each) with the outer
do-while: on the first entry with an alternative, pop the context (running the
post-pop hook), restore the engine snapshot, clear the implied valid splits,
take the head alternative, push the context (after the pre-push hook), apply
it, and repeat from the top while the engine reports inconsistent bounds (in
proof mode, after asking the engine to explain the simplex failure).  Returns
the flag returned by `popSplit` together with the final stack, context level
and engine state. -/
def popSplitLoop {E Split : Type} (eng : IEngine E Split) :
    List (SmtStackEntry E Split) → Nat → E →
      Bool × List (SmtStackEntry E Split) × Nat × E
  | [], lvl, e => (false, [], lvl, e)
  | top :: rest, lvl, e =>
    match h2 : top.alternativeSplits with
    | [] => popSplitLoop eng rest (lvl - 1) e
    | split :: altRest =>
      let e1 := eng.postContextPopHook e
      let e2 := eng.restoreState e1 top.engineState
      let e3 := eng.preContextPushHook e2
      let e4 := eng.applySplit e3 split
      let top1 : SmtStackEntry E Split :=
        { activeSplit := split
          alternativeSplits := altRest
          impliedValidSplits := []
          engineState := top.engineState }
      let inconsistent := !(eng.consistentBounds e4)
      let e5 := if eng.shouldProduceProofs && inconsistent then
          eng.explainSimplexFailure e4
        else e4
      if inconsistent then
        popSplitLoop eng (top1 :: rest) (lvl - 1 + 1) e5
      else
        (true, top1 :: rest, lvl - 1 + 1, e5)
termination_by stack lvl e => smtMeasure stack
decreasing_by
  all_goals (simp [smtMeasure, h2]; try omega)

/-- `SmtCore::popSplit`: an empty stack returns false immediately; otherwise
the loop runs and the state components it threads are written back. -/
def popSplit {E Split C : Type} (eng : IEngine E Split)
    (s : SmtCoreState E Split C) : Bool × SmtCoreState E Split C :=
  if s.stack.isEmpty then
    (false, s)
  else
    let r := popSplitLoop eng s.stack s.contextLevel s.engine
    (r.1, { s with stack := r.2.1, contextLevel := r.2.2.1, engine := r.2.2.2 })

/-- `SmtCore::recordImpliedValidSplit`: append to the newest stack entry, or to
the root list when the stack is empty. -/
def recordImpliedValidSplit {E Split C : Type} (s : SmtCoreState E Split C)
    (validSplit : Split) : SmtCoreState E Split C :=
  match s.stack with
  | [] =>
    { s with impliedValidSplitsAtRoot := s.impliedValidSplitsAtRoot ++ [validSplit] }
  | top :: rest =>
    { s with stack :=
        { top with impliedValidSplits := top.impliedValidSplits ++ [validSplit] } :: rest }

/-- `SmtCore::allSplitsSoFar`: clear the output, append the root-level implied
valid splits, then walk the stack from oldest to newest appending each
active split followed by that level's implied valid splits. -/
def allSplitsSoFar {E Split C : Type} (s : SmtCoreState E Split C) : List Split :=
  let result := s.impliedValidSplitsAtRoot.foldl (fun acc sp => acc ++ [sp]) []
  s.stack.reverse.foldl
    (fun acc en =>
      en.impliedValidSplits.foldl (fun a sp => a ++ [sp]) (acc ++ [en.activeSplit]))
    result

/-- The while loop of `SmtCore::chooseViolatedConstraintForFixing`: scan the
contenders, replacing the candidate whenever a strictly smaller violation
count is seen.  `counts` models `getViolationCounts` (a total map defaulting
to zero stands for the exists-checked `Map`). -/
def leastFixLoop {C : Type} (counts : C → Nat) :
    List C → C → Nat → C
  | [], candidate, _ => candidate
  | contender :: rest, candidate, minFixes =>
    if counts contender < minFixes then
      leastFixLoop counts rest contender (counts contender)
    else
      leastFixLoop counts rest candidate minFixes

/-- `SmtCore::chooseViolatedConstraintForFixing`: without `USE_LEAST_FIX`
return the first violated constraint; otherwise run the least-fix scan seeded
with the first constraint (the C++ iterator starts the while loop back at the
first element, which merely re-examines the seed).  The empty list is excluded
by an ASSERT, modelled by returning `none`. -/
def chooseViolatedConstraintForFixing {C : Type} (useLeastFix : Bool)
    (counts : C → Nat) (violated : List C) : Option C :=
  match violated with
  | [] => none
  | c0 :: rest =>
    if !useLeastFix then some c0
    else some (leastFixLoop counts (c0 :: rest) c0 (counts c0))

/-! ## The tightening passes as the spec words them, with an explicit rounding
constant

The spec states that on registering a lower bound the tightener subtracts the
rounding constant and on registering an upper bound adds it, in both passes.
The following definitions follow those words, with the applied constant `r`
made an explicit argument, to be compared with the definitions translated
from the source. -/

/-- Modelled from the spec: the non-basic-variable loop of the inverted-basis
pass with the rounding constant `r` applied on registration. -/
def tightenInvRowXiLoopRounded (cfg : Config) (r : ℚ) :
    List (RowEntry × CiSign × ℚ × ℚ) → ℚ → ℚ → Nat → Bounds →
      Except Unit (Nat × Bounds)
  | [], _, _, result, B => Except.ok (result, B)
  | (e, s, cLb, cUb) :: rest, auxLb, auxUb, result, B =>
    if s = CiSign.zero ∨ FloatUtils.lt cfg.eps |e.coefficient| cfg.minCoeff = true then
      tightenInvRowXiLoopRounded cfg r rest auxLb auxUb result B
    else
      let lb0 := if s = CiSign.negative then auxLb + cLb else auxLb + cUb
      let ub0 := if s = CiSign.negative then auxUb + cUb else auxUb + cLb
      let lb1 := lb0 / e.coefficient
      let ub1 := ub0 / e.coefficient
      let lb2 := if s = CiSign.negative then ub1 else lb1
      let ub2 := if s = CiSign.negative then lb1 else ub1
      let p1 := registerTighterLowerBound cfg B e.var (lb2 - r)
      let p2 := registerTighterUpperBound cfg p1.2 e.var (ub2 + r)
      if FloatUtils.gt cfg.eps (p2.2.lb e.var) (p2.2.ub e.var) then
        Except.error ()
      else
        tightenInvRowXiLoopRounded cfg r rest auxLb auxUb (result + p1.1 + p2.1) p2.2

/-- Modelled from the spec: the inverted-basis row pass with the rounding
constant `r` applied on every registration. -/
def tightenOnSingleInvertedBasisRowRounded (cfg : Config) (r : ℚ)
    (row : TableauRow) (B : Bounds) : Except Unit (Nat × Bounds) :=
  let p1 := registerTighterLowerBound cfg B row.lhs (invRowYLower cfg B row - r)
  let p2 := registerTighterUpperBound cfg p1.2 row.lhs (invRowYUpper cfg B row + r)
  if FloatUtils.gt cfg.eps (p2.2.lb row.lhs) (p2.2.ub row.lhs) then
    Except.error ()
  else
    let data := row.row.map (fun e => (e, invRowCiData cfg B e))
    tightenInvRowXiLoopRounded cfg r data
      (invRowAuxLb cfg B row (p2.2.lb row.lhs))
      (invRowAuxUb cfg B row (p2.2.ub row.lhs))
      (p1.1 + p2.1) p2.2

/-- Modelled from the spec: the constraint-matrix entry loop with the rounding
constant `r` applied on registration. -/
def tightenConstraintRowLoopRounded (cfg : Config) (r : ℚ) :
    List (RowEntry × CiSign × ℚ × ℚ) → ℚ → ℚ → Nat → Bounds →
      Except Unit (Nat × Bounds)
  | [], _, _, result, B => Except.ok (result, B)
  | (e, s, cLb, cUb) :: rest, auxLb, auxUb, result, B =>
    let lb0 := if s = CiSign.negative then auxLb + cLb else auxLb + cUb
    let ub0 := if s = CiSign.negative then auxUb + cUb else auxUb + cLb
    if FloatUtils.lt cfg.eps |e.coefficient| cfg.minCoeff = true then
      tightenConstraintRowLoopRounded cfg r rest auxLb auxUb result B
    else
      let lb1 := lb0 / e.coefficient
      let ub1 := ub0 / e.coefficient
      let lb2 := if s = CiSign.negative then ub1 else lb1
      let ub2 := if s = CiSign.negative then lb1 else ub1
      let p1 := registerTighterLowerBound cfg B e.var (lb2 - r)
      let p2 := registerTighterUpperBound cfg p1.2 e.var (ub2 + r)
      if FloatUtils.gt cfg.eps (p2.2.lb e.var) (p2.2.ub e.var) then
        Except.error ()
      else
        tightenConstraintRowLoopRounded cfg r rest auxLb auxUb (result + p1.1 + p2.1) p2.2

/-- Modelled from the spec: the constraint-matrix row pass with the rounding
constant `r` applied on every registration. -/
def tightenOnSingleConstraintRowRounded (cfg : Config) (r : ℚ)
    (row : ConstraintRow) (B : Bounds) : Except Unit (Nat × Bounds) :=
  let data := row.entries.map (fun e => (e, constraintRowCiData cfg B e))
  tightenConstraintRowLoopRounded cfg r data
    (constraintRowAuxLb cfg B row) (constraintRowAuxUb cfg B row) 0 B

/-! ## Concrete instances used in counterexamples and witnesses -/

/-- Projection of a tightening outcome to the accepted-bound count and the
bounds of variable 0, used to state concrete evaluations. -/
def tighteningOutcome (r : Except Unit (Nat × Bounds)) : Nat × ℚ × ℚ :=
  match r with
  | Except.ok p => (p.1, p.2.lb 0, p.2.ub 0)
  | Except.error _ => (0, 0, 0)

/-- A configuration with tolerance 1, minimal tightening coefficient 10 and no
rounding constant. -/
def cexThresholdCfg : Config := { eps := 1, minCoeff := 10, roundConst := 0, satIters := 1 }

/-- A constraint row `10 * x0 = 100` whose single coefficient sits exactly at
the minimal-coefficient threshold of `cexThresholdCfg`. -/
def cexThresholdRow : ConstraintRow := { scalar := 100, entries := [⟨0, 10⟩] }

/-- Initial bounds `x ∈ [-1000, 1000]` for every variable. -/
def cexWideBounds : Bounds := { lb := fun _ => -1000, ub := fun _ => 1000 }

/-- Same data as `cexThresholdCfg` but with rounding constant 1. -/
def cexRoundingCfg : Config := { eps := 1, minCoeff := 10, roundConst := 1, satIters := 1 }

/-- A configuration for the infeasibility witness: tolerance 1/100. -/
def wInfeasibleCfg : Config := { eps := 1 / 100, minCoeff := 1, roundConst := 0, satIters := 1 }

/-- A tableau row `x0 = 1 * x1` whose basic variable gets crossing bounds under
`wInfeasibleBounds`. -/
def wInfeasibleRow : TableauRow := { scalar := 0, lhs := 0, row := [⟨1, 1⟩] }

/-- Bounds putting `x1 = 10` while `x0 ∈ [-100, -50]`, so that tightening
`wInfeasibleRow` derives `x0 = 10` and crosses the upper bound. -/
def wInfeasibleBounds : Bounds :=
  { lb := fun v => if v = 1 then 10 else -100
    ub := fun v => if v = 1 then 10 else -50 }

/-- A trivial engine over unit state and boolean splits, used to instantiate
the decision-stack theorems. -/
def trivEngine : IEngine Unit Bool :=
  { applySplit := fun e _ => e
    consistentBounds := fun _ => true
    restoreState := fun _ snap => snap
    preContextPushHook := fun e => e
    postContextPopHook := fun e => e
    explainSimplexFailure := fun e => e
    shouldProduceProofs := false }

/-- A decision-core state with an empty stack whose candidate constraint is
set and inactive. -/
def wInactiveState : SmtCoreState Unit Bool Unit :=
  { stack := []
    contextLevel := 0
    engine := ()
    impliedValidSplitsAtRoot := []
    needToSplit := true
    constraintForSplitting := some ()
    constraintActive := fun _ => false
    constraintToViolationCount := fun _ => 7
    numRejectedPhasePatternProposal := 3
    stateId := 0 }

/-- A decision-core state with an empty stack whose candidate constraint is
set and active. -/
def wActiveState : SmtCoreState Unit Bool Unit :=
  { stack := []
    contextLevel := 0
    engine := ()
    impliedValidSplitsAtRoot := []
    needToSplit := true
    constraintForSplitting := some ()
    constraintActive := fun _ => true
    constraintToViolationCount := fun _ => 7
    numRejectedPhasePatternProposal := 3
    stateId := 0 }

/-- Three violated constraints, identified by index. -/
def wViolatedList : List Nat := [0, 1, 2]

/-- Historical violation counts `(3, 1, 5)` for `wViolatedList`. -/
def wViolationCounts : Nat → Nat := fun n => if n = 0 then 3 else if n = 1 then 1 else 5

/-! ## Theorems -/

/-- Utility: a left fold that appends singletons concatenates the list. -/
theorem foldl_append_singleton {α : Type} (l init : List α) :
    l.foldl (fun acc x => acc ++ [x]) init = init ++ l := by
  induction l generalizing init with
  | nil => simp
  | cons x xs ih => simp [List.foldl_cons, ih]

/-- Utility for C10: the accumulated lower contribution of the basic-variable
pass, entry by entry. -/
theorem invRowCiData_sum_lower (cfg : Config) (B : Bounds) :
    ∀ l : List RowEntry,
      (l.map (fun e =>
        let d := invRowCiData cfg B e
        if d.1 = CiSign.positive then d.2.1 else d.2.2)).sum =
      (l.map (fun e =>
        if FloatUtils.isZero cfg.eps e.coefficient then 0
        else if FloatUtils.isPositive cfg.eps e.coefficient then
          e.coefficient * B.lb e.var
        else e.coefficient * B.ub e.var)).sum := by
  intro l
  induction l with
  | nil => rfl
  | cons e es ih =>
    simp only [List.map_cons, List.sum_cons, ih]
    congr 1
    unfold invRowCiData
    by_cases hz : FloatUtils.isZero cfg.eps e.coefficient = true <;>
      by_cases hp : FloatUtils.isPositive cfg.eps e.coefficient = true <;>
      simp [hz, hp]

/-- Utility for C10: the accumulated upper contribution of the basic-variable
pass, entry by entry. -/
theorem invRowCiData_sum_upper (cfg : Config) (B : Bounds) :
    ∀ l : List RowEntry,
      (l.map (fun e =>
        let d := invRowCiData cfg B e
        if d.1 = CiSign.positive then d.2.2 else d.2.1)).sum =
      (l.map (fun e =>
        if FloatUtils.isZero cfg.eps e.coefficient then 0
        else if FloatUtils.isPositive cfg.eps e.coefficient then
          e.coefficient * B.ub e.var
        else e.coefficient * B.lb e.var)).sum := by
  intro l
  induction l with
  | nil => rfl
  | cons e es ih =>
    simp only [List.map_cons, List.sum_cons, ih]
    congr 1
    unfold invRowCiData
    by_cases hz : FloatUtils.isZero cfg.eps e.coefficient = true <;>
      by_cases hp : FloatUtils.isPositive cfg.eps e.coefficient = true <;>
      simp [hz, hp]

/-- C10: in `tightenOnSingleInvertedBasisRow` the minimal-coefficient
threshold is consulted only when deriving bounds for the non-basic variables.
The bounds derived for the basic variable accumulate every row entry excluding
only the entries `FloatUtils::isZero` classifies as zero, and they are
unchanged under any modification of `MINIMAL_COEFFICIENT_FOR_TIGHTENING`. -/
theorem basic_variable_pass_ignores_threshold (cfg : Config) (B : Bounds)
    (row : TableauRow) (x : ℚ) :
    invRowYLower { cfg with minCoeff := x } B row = invRowYLower cfg B row ∧
    invRowYUpper { cfg with minCoeff := x } B row = invRowYUpper cfg B row ∧
    invRowYLower cfg B row = row.scalar +
      (row.row.map (fun e =>
        if FloatUtils.isZero cfg.eps e.coefficient then 0
        else if FloatUtils.isPositive cfg.eps e.coefficient then
          e.coefficient * B.lb e.var
        else e.coefficient * B.ub e.var)).sum ∧
    invRowYUpper cfg B row = row.scalar +
      (row.row.map (fun e =>
        if FloatUtils.isZero cfg.eps e.coefficient then 0
        else if FloatUtils.isPositive cfg.eps e.coefficient then
          e.coefficient * B.ub e.var
        else e.coefficient * B.lb e.var)).sum := by
  refine ⟨rfl, rfl, ?_, ?_⟩
  · unfold invRowYLower
    congr 1
    exact invRowCiData_sum_lower cfg B row.row
  · unfold invRowYUpper
    congr 1
    exact invRowCiData_sum_upper cfg B row.row

/-- Utility for C9: folding the per-frame appends concatenates active splits
and implied valid splits frame by frame. -/
theorem allSplitsSoFar_frames_foldl {E Split : Type}
    (frames : List (SmtStackEntry E Split)) (init : List Split) :
    frames.foldl
      (fun acc en =>
        en.impliedValidSplits.foldl (fun a sp => a ++ [sp]) (acc ++ [en.activeSplit]))
      init =
      init ++ frames.flatMap (fun en => en.activeSplit :: en.impliedValidSplits) := by
  induction frames generalizing init with
  | nil => simp
  | cons en rest ih =>
    rw [List.foldl_cons, foldl_append_singleton, ih]
    simp

/-- C9: `allSplitsSoFar` returns exactly the root-level implied valid splits
in order, followed, for each frame from oldest to newest, by that frame's
active case and then its implied valid splits. -/
theorem allSplitsSoFar_sequence {E Split C : Type} (s : SmtCoreState E Split C) :
    allSplitsSoFar s =
      s.impliedValidSplitsAtRoot ++
        s.stack.reverse.flatMap (fun en => en.activeSplit :: en.impliedValidSplits) := by
  unfold allSplitsSoFar
  rw [foldl_append_singleton, allSplitsSoFar_frames_foldl]
  simp

/-- Utility for C8: the least-fix scan returns a candidate from the scanned
list (or the seed), never increases the violation count relative to the seed,
and its result is minimal over the scanned list. -/
theorem leastFixLoop_spec {C : Type} (counts : C → Nat) :
    ∀ (l : List C) (cand : C),
      (leastFixLoop counts l cand (counts cand) = cand ∨
        leastFixLoop counts l cand (counts cand) ∈ l) ∧
      counts (leastFixLoop counts l cand (counts cand)) ≤ counts cand ∧
      ∀ d ∈ l, counts (leastFixLoop counts l cand (counts cand)) ≤ counts d := by
  intro l
  induction l with
  | nil => intro cand; simp [leastFixLoop]
  | cons contender rest ih =>
    intro cand
    by_cases hlt : counts contender < counts cand
    · have hr := ih contender
      refine ⟨?_, ?_, ?_⟩
      · rcases hr.1 with h1 | h1
        · right; rw [leastFixLoop, if_pos hlt, h1]; exact List.mem_cons_self _ _
        · right; rw [leastFixLoop, if_pos hlt]; exact List.mem_cons_of_mem _ h1
      · rw [leastFixLoop, if_pos hlt]; exact le_of_lt (lt_of_le_of_lt hr.2.1 hlt)
      · intro d hd
        rw [leastFixLoop, if_pos hlt]
        rcases List.mem_cons.mp hd with h1 | h1
        · rw [h1]; exact hr.2.1
        · exact hr.2.2 d h1
    · have hr := ih cand
      refine ⟨?_, ?_, ?_⟩
      · rcases hr.1 with h1 | h1
        · left; rw [leastFixLoop, if_neg hlt, h1]
        · right; rw [leastFixLoop, if_neg hlt]; exact List.mem_cons_of_mem _ h1
      · rw [leastFixLoop, if_neg hlt]; exact hr.2.1
      · intro d hd
        rw [leastFixLoop, if_neg hlt]
        rcases List.mem_cons.mp hd with h1 | h1
        · rw [h1]; exact le_trans hr.2.1 (Nat.le_of_not_lt hlt)
        · exact hr.2.2 d h1

/-- C8: on a non-empty violated list, `chooseViolatedConstraintForFixing`
returns the first constraint in list order when `USE_LEAST_FIX` is disabled,
and a violated constraint with the fewest historical violation counts when it
is enabled. -/
theorem chooseViolatedConstraintForFixing_spec {C : Type} (useLeastFix : Bool)
    (counts : C → Nat) (violated : List C) (h : violated ≠ []) :
    (useLeastFix = false →
      chooseViolatedConstraintForFixing useLeastFix counts violated =
        some (violated.head h)) ∧
    (useLeastFix = true →
      ∃ c, chooseViolatedConstraintForFixing useLeastFix counts violated = some c ∧
        c ∈ violated ∧ ∀ d ∈ violated, counts c ≤ counts d) := by
  match violated with
  | [] => exact absurd rfl h
  | c0 :: rest =>
    constructor
    · intro hu
      simp [chooseViolatedConstraintForFixing, hu]
    · intro hu
      refine ⟨leastFixLoop counts (c0 :: rest) c0 (counts c0), ?_, ?_, ?_⟩
      · simp [chooseViolatedConstraintForFixing, hu]
      · rcases (leastFixLoop_spec counts (c0 :: rest) c0).1 with h1 | h1
        · rw [h1]; exact List.mem_cons_self _ _
        · exact h1
      · exact (leastFixLoop_spec counts (c0 :: rest) c0).2.2

/-- Witness for C8 at violation counts `(3, 1, 5)`. -/
theorem chooseViolatedConstraintForFixing_witness :
    wViolatedList ≠ [] ∧
    ((false = false →
      chooseViolatedConstraintForFixing false wViolationCounts wViolatedList =
        some (wViolatedList.head (by decide))) ∧
     (false = true →
      ∃ c, chooseViolatedConstraintForFixing false wViolationCounts wViolatedList = some c ∧
        c ∈ wViolatedList ∧ ∀ d ∈ wViolatedList, wViolationCounts c ≤ wViolationCounts d)) ∧
    ((true = false →
      chooseViolatedConstraintForFixing true wViolationCounts wViolatedList =
        some (wViolatedList.head (by decide))) ∧
     (true = true →
      ∃ c, chooseViolatedConstraintForFixing true wViolationCounts wViolatedList = some c ∧
        c ∈ wViolatedList ∧ ∀ d ∈ wViolatedList, wViolationCounts c ≤ wViolationCounts d)) :=
  ⟨by decide,
   chooseViolatedConstraintForFixing_spec false wViolationCounts wViolatedList (by decide),
   chooseViolatedConstraintForFixing_spec true wViolationCounts wViolatedList (by decide)⟩

/-- C4: `performSplit` on a candidate that has become inactive clears the
split state and changes nothing else: `needToSplit` becomes false, the
candidate is cleared and its violation count zeroed, and no frame is created,
no context level pushed and no split applied to the engine. -/
theorem performSplit_inactive_noop {E Split C : Type} [DecidableEq C]
    (eng : IEngine E Split) (gcs : C → List Split) (s : SmtCoreState E Split C)
    (c : C) (_hneed : s.needToSplit = true)
    (hcand : s.constraintForSplitting = some c)
    (hinactive : s.constraintActive c = false) :
    (performSplit eng gcs s).needToSplit = false ∧
    (performSplit eng gcs s).constraintForSplitting = none ∧
    (performSplit eng gcs s).stack = s.stack ∧
    (performSplit eng gcs s).contextLevel = s.contextLevel ∧
    (performSplit eng gcs s).engine = s.engine ∧
    (performSplit eng gcs s).constraintToViolationCount c = 0 := by
  unfold performSplit
  rw [hcand]
  simp [hinactive]

/-- Witness for C4: an inactive candidate on `wInactiveState`. -/
theorem performSplit_inactive_noop_witness :
    wInactiveState.needToSplit = true ∧
    wInactiveState.constraintForSplitting = some () ∧
    wInactiveState.constraintActive () = false ∧
    ((performSplit trivEngine (fun _ => [true, false]) wInactiveState).needToSplit = false ∧
     (performSplit trivEngine (fun _ => [true, false]) wInactiveState).constraintForSplitting
        = none ∧
     (performSplit trivEngine (fun _ => [true, false]) wInactiveState).stack
        = wInactiveState.stack ∧
     (performSplit trivEngine (fun _ => [true, false]) wInactiveState).contextLevel
        = wInactiveState.contextLevel ∧
     (performSplit trivEngine (fun _ => [true, false]) wInactiveState).engine
        = wInactiveState.engine ∧
     (performSplit trivEngine (fun _ => [true, false]) wInactiveState).constraintToViolationCount ()
        = 0) :=
  ⟨rfl, rfl, rfl,
   performSplit_inactive_noop trivEngine (fun _ => [true, false]) wInactiveState () rfl rfl rfl⟩

/-- Utility for C3: the inverted-basis entry loop is the spec-worded rounded
loop instantiated with the configured rounding constant. -/
theorem tightenInvRowXiLoop_eq_rounded (cfg : Config) :
    ∀ (l : List (RowEntry × CiSign × ℚ × ℚ)) (auxLb auxUb : ℚ) (res : Nat) (B : Bounds),
      tightenInvRowXiLoop cfg l auxLb auxUb res B =
        tightenInvRowXiLoopRounded cfg cfg.roundConst l auxLb auxUb res B := by
  intro l
  induction l with
  | nil => intros; rfl
  | cons hd rest ih =>
    intro auxLb auxUb res B
    obtain ⟨e, s, cLb, cUb⟩ := hd
    rw [tightenInvRowXiLoop, tightenInvRowXiLoopRounded]
    simp only [ih]

/-- Utility for C3: the constraint-matrix entry loop is the spec-worded
rounded loop instantiated with rounding constant zero. -/
theorem tightenConstraintRowLoop_eq_rounded_zero (cfg : Config) :
    ∀ (l : List (RowEntry × CiSign × ℚ × ℚ)) (auxLb auxUb : ℚ) (res : Nat) (B : Bounds),
      tightenConstraintRowLoop cfg l auxLb auxUb res B =
        tightenConstraintRowLoopRounded cfg 0 l auxLb auxUb res B := by
  intro l
  induction l with
  | nil => intros; rfl
  | cons hd rest ih =>
    intro auxLb auxUb res B
    obtain ⟨e, s, cLb, cUb⟩ := hd
    rw [tightenConstraintRowLoop, tightenConstraintRowLoopRounded]
    simp only [sub_zero, add_zero, ih]

/-- C3 (amended): the rounding constant is applied to every bound registered
by the inverted-basis pass, while the constraint-matrix pass registers the
derived values unmodified, i.e. behaves as the rounded pass with constant
zero. -/
theorem roundingConstant_pass_spec (cfg : Config) (row : TableauRow)
    (crow : ConstraintRow) (B : Bounds) :
    tightenOnSingleInvertedBasisRow cfg row B =
      tightenOnSingleInvertedBasisRowRounded cfg cfg.roundConst row B ∧
    tightenOnSingleConstraintRow cfg crow B =
      tightenOnSingleConstraintRowRounded cfg 0 crow B := by
  constructor
  · rw [tightenOnSingleInvertedBasisRow, tightenOnSingleInvertedBasisRowRounded]
    split
    · rfl
    · exact tightenInvRowXiLoop_eq_rounded cfg _ _ _ _ _
  · rw [tightenOnSingleConstraintRow, tightenOnSingleConstraintRowRounded]
    exact tightenConstraintRowLoop_eq_rounded_zero cfg _ _ _ _ _

/-- C3 counterexample: with rounding constant 1, the constraint-matrix pass on
the row `10 * x0 = 100` with `x0` in `[-1000, 1000]` stores `x0` bounds
`[10, 10]`, not the `[9, 11]` that applying the rounding constant would give;
the claim that the constraint-matrix pass applies the rounding constant fails
at this input. -/
theorem roundingConstant_claim_counterexample :
    tighteningOutcome
        (tightenOnSingleConstraintRow cexRoundingCfg cexThresholdRow cexWideBounds) =
      (2, 10, 10) ∧
    tighteningOutcome
        (tightenOnSingleConstraintRowRounded cexRoundingCfg cexRoundingCfg.roundConst
          cexThresholdRow cexWideBounds) =
      (2, 9, 11) ∧
    tighteningOutcome
        (tightenOnSingleConstraintRow cexRoundingCfg cexThresholdRow cexWideBounds) ≠
      tighteningOutcome
        (tightenOnSingleConstraintRowRounded cexRoundingCfg cexRoundingCfg.roundConst
          cexThresholdRow cexWideBounds) := by
  have h1 : tighteningOutcome
      (tightenOnSingleConstraintRow cexRoundingCfg cexThresholdRow cexWideBounds) =
      (2, 10, 10) := by with_unfolding_all rfl
  have h2 : tighteningOutcome
      (tightenOnSingleConstraintRowRounded cexRoundingCfg cexRoundingCfg.roundConst
        cexThresholdRow cexWideBounds) = (2, 9, 11) := by with_unfolding_all rfl
  refine ⟨h1, h2, ?_⟩
  rw [h1, h2]
  simp only [ne_eq, Prod.mk.injEq]
  norm_num

/-- Utility for C2: a skipped entry of the constraint-matrix loop contributes
nothing, wherever it sits in the row. -/
theorem tightenConstraintRowLoop_skip (cfg : Config) (e : RowEntry) (s : CiSign)
    (cLb cUb : ℚ)
    (hskip : FloatUtils.lt cfg.eps |e.coefficient| cfg.minCoeff = true) :
    ∀ (pre post : List (RowEntry × CiSign × ℚ × ℚ)) (auxLb auxUb : ℚ)
      (res : Nat) (B : Bounds),
      tightenConstraintRowLoop cfg (pre ++ (e, s, cLb, cUb) :: post) auxLb auxUb res B =
        tightenConstraintRowLoop cfg (pre ++ post) auxLb auxUb res B := by
  intro pre
  induction pre with
  | nil =>
    intro post auxLb auxUb res B
    simp only [List.nil_append]
    rw [tightenConstraintRowLoop]
    simp only [hskip, if_true]
  | cons hd rest ih =>
    intro post auxLb auxUb res B
    obtain ⟨e2, s2, cLb2, cUb2⟩ := hd
    simp only [List.cons_append, tightenConstraintRowLoop, List.append_eq, ih]

/-- Utility for C2: a skipped entry of the inverted-basis loop contributes
nothing, wherever it sits in the row. -/
theorem tightenInvRowXiLoop_skip (cfg : Config) (e : RowEntry) (s : CiSign)
    (cLb cUb : ℚ)
    (hskip : s = CiSign.zero ∨ FloatUtils.lt cfg.eps |e.coefficient| cfg.minCoeff = true) :
    ∀ (pre post : List (RowEntry × CiSign × ℚ × ℚ)) (auxLb auxUb : ℚ)
      (res : Nat) (B : Bounds),
      tightenInvRowXiLoop cfg (pre ++ (e, s, cLb, cUb) :: post) auxLb auxUb res B =
        tightenInvRowXiLoop cfg (pre ++ post) auxLb auxUb res B := by
  intro pre
  induction pre with
  | nil =>
    intro post auxLb auxUb res B
    simp only [List.nil_append]
    rw [tightenInvRowXiLoop, if_pos hskip]
  | cons hd rest ih =>
    intro post auxLb auxUb res B
    obtain ⟨e2, s2, cLb2, cUb2⟩ := hd
    simp only [List.cons_append, tightenInvRowXiLoop, List.append_eq, ih]

/-- C2 (amended): an entry is skipped, and yields no derived bound for its
variable, exactly when the tolerance comparison
`FloatUtils::lt(abs(ci), MINIMAL_COEFFICIENT_FOR_TIGHTENING)` holds, i.e. when
the coefficient magnitude is below the threshold by more than the comparison
tolerance.  An entry exactly at the threshold fails that comparison and is
processed. -/
theorem minimalCoefficient_skip_spec (cfg : Config) (e : RowEntry) (s : CiSign)
    (cLb cUb : ℚ) (pre post : List (RowEntry × CiSign × ℚ × ℚ))
    (auxLb auxUb : ℚ) (res : Nat) (B : Bounds)
    (hskip : FloatUtils.lt cfg.eps |e.coefficient| cfg.minCoeff = true) :
    |e.coefficient| < cfg.minCoeff - cfg.eps ∧
    tightenConstraintRowLoop cfg (pre ++ (e, s, cLb, cUb) :: post) auxLb auxUb res B =
      tightenConstraintRowLoop cfg (pre ++ post) auxLb auxUb res B ∧
    tightenInvRowXiLoop cfg (pre ++ (e, s, cLb, cUb) :: post) auxLb auxUb res B =
      tightenInvRowXiLoop cfg (pre ++ post) auxLb auxUb res B := by
  refine ⟨?_,
    tightenConstraintRowLoop_skip cfg e s cLb cUb hskip pre post auxLb auxUb res B,
    tightenInvRowXiLoop_skip cfg e s cLb cUb (Or.inr hskip) pre post auxLb auxUb res B⟩
  have h := hskip
  simp only [FloatUtils.lt, FloatUtils.gt, FloatUtils.isPositive,
    decide_eq_true_eq] at h
  linarith

/-- Witness for C2 at a concrete entry with coefficient 2 under threshold 10
and tolerance 1. -/
theorem minimalCoefficient_skip_witness :
    FloatUtils.lt cexThresholdCfg.eps |(2 : ℚ)| cexThresholdCfg.minCoeff = true ∧
    (|(RowEntry.mk 0 2).coefficient| < cexThresholdCfg.minCoeff - cexThresholdCfg.eps ∧
     tightenConstraintRowLoop cexThresholdCfg
         ([] ++ (RowEntry.mk 0 2, CiSign.positive, 0, 0) :: []) 0 0 0 cexWideBounds =
       tightenConstraintRowLoop cexThresholdCfg ([] ++ []) 0 0 0 cexWideBounds ∧
     tightenInvRowXiLoop cexThresholdCfg
         ([] ++ (RowEntry.mk 0 2, CiSign.positive, 0, 0) :: []) 0 0 0 cexWideBounds =
       tightenInvRowXiLoop cexThresholdCfg ([] ++ []) 0 0 0 cexWideBounds) :=
  ⟨by with_unfolding_all rfl,
   minimalCoefficient_skip_spec cexThresholdCfg (RowEntry.mk 0 2) CiSign.positive 0 0
     [] [] 0 0 0 cexWideBounds (by with_unfolding_all rfl)⟩

/-- C2 counterexample: the single coefficient of `cexThresholdRow` has
magnitude exactly `MINIMAL_COEFFICIENT_FOR_TIGHTENING`, yet the
constraint-matrix pass processes it and registers both derived bounds
`x0 ∈ [10, 10]` over the initial `[-1000, 1000]`: an entry exactly at the
threshold is not skipped. -/
theorem minimalCoefficient_at_threshold_counterexample :
    cexThresholdRow.entries = [RowEntry.mk 0 10] ∧
    |(10 : ℚ)| = cexThresholdCfg.minCoeff ∧
    tighteningOutcome
        (tightenOnSingleConstraintRow cexThresholdCfg cexThresholdRow cexWideBounds) =
      (2, 10, 10) ∧
    (cexWideBounds.lb 0, cexWideBounds.ub 0) = (-1000, 1000) :=
  ⟨rfl, by norm_num [cexThresholdCfg], by with_unfolding_all rfl,
   by with_unfolding_all rfl⟩

/-- C5: a crossing bound pair detected after registering the basic variable's
bounds makes `tightenOnSingleInvertedBasisRow` raise `InfeasibleQueryException`;
a failing pass makes `examineInvertedBasisMatrix` propagate the exception
uncaught; and on every exit path, exceptional or not,
`examineInvertedBasisMatrix` releases the explicit basis inverse first. -/
theorem infeasibleQuery_propagation_spec (cfg : Config) (rows : List TableauRow)
    (unt : Bool) (row : TableauRow) (B B0 : Bounds)
    (h1 : onePassOverInvertedBasisRows cfg rows 0 B0 = Except.error ())
    (h2 : FloatUtils.gt cfg.eps
        ((registerTighterUpperBound cfg
            (registerTighterLowerBound cfg B row.lhs
              (invRowYLower cfg B row - cfg.roundConst)).2 row.lhs
            (invRowYUpper cfg B row + cfg.roundConst)).2.lb row.lhs)
        ((registerTighterUpperBound cfg
            (registerTighterLowerBound cfg B row.lhs
              (invRowYLower cfg B row - cfg.roundConst)).2 row.lhs
            (invRowYUpper cfg B row + cfg.roundConst)).2.ub row.lhs) = true) :
    tightenOnSingleInvertedBasisRow cfg row B = Except.error () ∧
    (examineInvertedBasisMatrix cfg rows unt B0).1 = Except.error () ∧
    ∀ (rows2 : List TableauRow) (unt2 : Bool) (B2 : Bounds),
      (examineInvertedBasisMatrix cfg rows2 unt2 B2).2 = true := by
  refine ⟨?_, ?_, ?_⟩
  · rw [tightenOnSingleInvertedBasisRow]
    simp only [h2, if_true]
  · rw [examineInvertedBasisMatrix, saturationLoop, h1]
  · intro rows2 unt2 B2
    rw [examineInvertedBasisMatrix]
    rcases hsat : saturationLoop (fun b => onePassOverInvertedBasisRows cfg rows2 0 b)
        (if unt2 = true then cfg.satIters else 1) B2 0 with h | h <;> simp

/-- Witness for C5: tightening `wInfeasibleRow` under `wInfeasibleBounds`
derives `x0 = 10` against the upper bound `-50` and fails. -/
theorem infeasibleQuery_propagation_witness :
    onePassOverInvertedBasisRows wInfeasibleCfg [wInfeasibleRow] 0 wInfeasibleBounds =
      Except.error () ∧
    FloatUtils.gt wInfeasibleCfg.eps
        ((registerTighterUpperBound wInfeasibleCfg
            (registerTighterLowerBound wInfeasibleCfg wInfeasibleBounds wInfeasibleRow.lhs
              (invRowYLower wInfeasibleCfg wInfeasibleBounds wInfeasibleRow -
                wInfeasibleCfg.roundConst)).2 wInfeasibleRow.lhs
            (invRowYUpper wInfeasibleCfg wInfeasibleBounds wInfeasibleRow +
              wInfeasibleCfg.roundConst)).2.lb wInfeasibleRow.lhs)
        ((registerTighterUpperBound wInfeasibleCfg
            (registerTighterLowerBound wInfeasibleCfg wInfeasibleBounds wInfeasibleRow.lhs
              (invRowYLower wInfeasibleCfg wInfeasibleBounds wInfeasibleRow -
                wInfeasibleCfg.roundConst)).2 wInfeasibleRow.lhs
            (invRowYUpper wInfeasibleCfg wInfeasibleBounds wInfeasibleRow +
              wInfeasibleCfg.roundConst)).2.ub wInfeasibleRow.lhs) = true ∧
    (tightenOnSingleInvertedBasisRow wInfeasibleCfg wInfeasibleRow wInfeasibleBounds =
      Except.error () ∧
     (examineInvertedBasisMatrix wInfeasibleCfg [wInfeasibleRow] true wInfeasibleBounds).1 =
      Except.error () ∧
     ∀ (rows2 : List TableauRow) (unt2 : Bool) (B2 : Bounds),
       (examineInvertedBasisMatrix wInfeasibleCfg rows2 unt2 B2).2 = true) :=
  ⟨by with_unfolding_all rfl, by with_unfolding_all rfl,
   infeasibleQuery_propagation_spec wInfeasibleCfg [wInfeasibleRow] true wInfeasibleRow
     wInfeasibleBounds wInfeasibleBounds (by with_unfolding_all rfl)
     (by with_unfolding_all rfl)⟩

/-- Utility for C6: with an iteration budget of one, the driver performs
exactly one pass. -/
theorem saturationLoop_budget_one (pass : Bounds → Except Unit (Nat × Bounds))
    (B : Bounds) (count : Nat) :
    saturationLoop pass 1 B count =
      match pass B with
      | Except.error e => Except.error e
      | Except.ok (_, B1) => Except.ok (B1, count + 1) := by
  rw [saturationLoop]
  rcases pass B with e | ⟨nb, B1⟩ <;> simp

/-- Utility for C6: the number of performed passes never exceeds the positive
iteration budget. -/
theorem saturationLoop_count_le (pass : Bounds → Except Unit (Nat × Bounds)) :
    ∀ (m : Nat) (B : Bounds) (count : Nat) (B1 : Bounds) (c : Nat),
      0 < m → saturationLoop pass m B count = Except.ok (B1, c) →
        c ≤ count + m := by
  intro m
  induction m using Nat.strong_induction_on with
  | _ m ih =>
    intro B count B1 c hm h
    rw [saturationLoop] at h
    split at h
    · simp at h
    · split at h
      next hcond =>
        have hrec := ih (m - 1) (by omega) _ (count + 1) B1 c (by omega) h
        omega
      next hcond =>
        simp only [Except.ok.injEq, Prod.mk.injEq] at h
        omega

/-- Utility for C6: a pass that learns no new bound ends the loop at once. -/
theorem saturationLoop_zero_pass (pass : Bounds → Except Unit (Nat × Bounds))
    (m : Nat) (B B2 : Bounds) (count : Nat)
    (h : pass B = Except.ok (0, B2)) :
    saturationLoop pass m B count = Except.ok (B2, count + 1) := by
  rw [saturationLoop, h]
  simp

/-- C6: with `untilSaturation` false, `examineConstraintMatrix` and
`examineImplicitInvertedBasisMatrix` perform exactly one pass; with it true
they perform at most `ROW_BOUND_TIGHTENER_SATURATION_ITERATIONS` passes and
stop immediately after the first pass that learns zero new bounds. -/
theorem examine_saturation_spec (cfg : Config) (crows : List ConstraintRow)
    (irows : List TableauRow) (B : Bounds) (h : 0 < cfg.satIters) :
    (∀ B1 c, examineConstraintMatrix cfg crows false B = Except.ok (B1, c) → c = 1) ∧
    (∀ B1 c, examineConstraintMatrix cfg crows true B = Except.ok (B1, c) →
      c ≤ cfg.satIters) ∧
    (∀ B2, onePassOverConstraintMatrix cfg crows 0 B = Except.ok (0, B2) →
      examineConstraintMatrix cfg crows true B = Except.ok (B2, 1)) ∧
    (∀ B1 c, examineImplicitInvertedBasisMatrix cfg irows false B = Except.ok (B1, c) →
      c = 1) ∧
    (∀ B1 c, examineImplicitInvertedBasisMatrix cfg irows true B = Except.ok (B1, c) →
      c ≤ cfg.satIters) ∧
    (∀ B2, onePassOverInvertedBasisRows cfg irows 0 B = Except.ok (0, B2) →
      examineImplicitInvertedBasisMatrix cfg irows true B = Except.ok (B2, 1)) := by
  refine ⟨?_, ?_, ?_, ?_, ?_, ?_⟩
  · intro B1 c hc
    rw [examineConstraintMatrix] at hc
    simp only [if_neg Bool.false_ne_true] at hc
    rw [saturationLoop_budget_one] at hc
    rcases hp : onePassOverConstraintMatrix cfg crows 0 B with e | ⟨nb, B2⟩ <;>
      rw [hp] at hc
    · cases hc
    · simp only [Except.ok.injEq, Prod.mk.injEq] at hc
      omega
  · intro B1 c hc
    rw [examineConstraintMatrix] at hc
    simp only [if_pos rfl] at hc
    have := saturationLoop_count_le (fun b => onePassOverConstraintMatrix cfg crows 0 b)
      cfg.satIters B 0 B1 c h hc
    omega
  · intro B2 hp
    rw [examineConstraintMatrix]
    simp only [if_pos rfl]
    exact saturationLoop_zero_pass _ cfg.satIters B B2 0 hp
  · intro B1 c hc
    rw [examineImplicitInvertedBasisMatrix] at hc
    simp only [if_neg Bool.false_ne_true] at hc
    rw [saturationLoop_budget_one] at hc
    rcases hp : onePassOverInvertedBasisRows cfg irows 0 B with e | ⟨nb, B2⟩ <;>
      rw [hp] at hc
    · cases hc
    · simp only [Except.ok.injEq, Prod.mk.injEq] at hc
      omega
  · intro B1 c hc
    rw [examineImplicitInvertedBasisMatrix] at hc
    simp only [if_pos rfl] at hc
    have := saturationLoop_count_le (fun b => onePassOverInvertedBasisRows cfg irows 0 b)
      cfg.satIters B 0 B1 c h hc
    omega
  · intro B2 hp
    rw [examineImplicitInvertedBasisMatrix]
    simp only [if_pos rfl]
    exact saturationLoop_zero_pass _ cfg.satIters B B2 0 hp

/-- Witness for C6 on empty row sets with iteration budget 1. -/
theorem examine_saturation_witness :
    0 < cexThresholdCfg.satIters ∧
    ((∀ B1 c, examineConstraintMatrix cexThresholdCfg [] false cexWideBounds =
        Except.ok (B1, c) → c = 1) ∧
     (∀ B1 c, examineConstraintMatrix cexThresholdCfg [] true cexWideBounds =
        Except.ok (B1, c) → c ≤ cexThresholdCfg.satIters) ∧
     (∀ B2, onePassOverConstraintMatrix cexThresholdCfg [] 0 cexWideBounds =
        Except.ok (0, B2) →
      examineConstraintMatrix cexThresholdCfg [] true cexWideBounds =
        Except.ok (B2, 1)) ∧
     (∀ B1 c, examineImplicitInvertedBasisMatrix cexThresholdCfg [] false cexWideBounds =
        Except.ok (B1, c) → c = 1) ∧
     (∀ B1 c, examineImplicitInvertedBasisMatrix cexThresholdCfg [] true cexWideBounds =
        Except.ok (B1, c) → c ≤ cexThresholdCfg.satIters) ∧
     (∀ B2, onePassOverInvertedBasisRows cexThresholdCfg [] 0 cexWideBounds =
        Except.ok (0, B2) →
      examineImplicitInvertedBasisMatrix cexThresholdCfg [] true cexWideBounds =
        Except.ok (B2, 1))) :=
  ⟨by norm_num [cexThresholdCfg],
   examine_saturation_spec cexThresholdCfg [] [] cexWideBounds
     (by norm_num [cexThresholdCfg])⟩

/-- Utility for C1 and C7: the popSplit loop returns false exactly when it
empties the stack; on true the engine reports consistent bounds and the new
top frame has cleared implied valid splits; the stack never grows; and a stack
depth equal to the context level stays equal to it. -/
theorem popSplitLoop_props {E Split : Type} (eng : IEngine E Split) :
    ∀ (n : Nat) (stack : List (SmtStackEntry E Split)) (lvl : Nat) (e : E),
      smtMeasure stack ≤ n →
      (((popSplitLoop eng stack lvl e).1 = false ↔
          (popSplitLoop eng stack lvl e).2.1 = []) ∧
       ((popSplitLoop eng stack lvl e).1 = true →
          eng.consistentBounds (popSplitLoop eng stack lvl e).2.2.2 = true ∧
          ∃ top rest, (popSplitLoop eng stack lvl e).2.1 = top :: rest ∧
            top.impliedValidSplits = []) ∧
       (popSplitLoop eng stack lvl e).2.1.length ≤ stack.length ∧
       (stack.length = lvl →
          (popSplitLoop eng stack lvl e).2.1.length =
            (popSplitLoop eng stack lvl e).2.2.1)) := by
  intro n
  induction n with
  | zero =>
    intro stack lvl e hm
    match stack with
    | [] => simp [popSplitLoop]
    | top :: rest =>
      exfalso
      simp only [smtMeasure, List.map_cons, List.sum_cons] at hm
      omega
  | succ n ihn =>
    intro stack lvl e hm
    match stack with
    | [] => simp [popSplitLoop]
    | ⟨act, alts, impl, snap⟩ :: rest =>
      match halts : alts with
      | [] =>
        have hmr : smtMeasure rest ≤ n := by
          simp only [smtMeasure, List.map_cons, List.sum_cons] at hm
          simp only [smtMeasure]
          omega
        have H := ihn rest (lvl - 1) e hmr
        have hstep :
            popSplitLoop eng (⟨act, [], impl, snap⟩ :: rest) lvl e =
              popSplitLoop eng rest (lvl - 1) e := by
          rw [popSplitLoop]
        rw [hstep]
        refine ⟨H.1, H.2.1, le_trans H.2.2.1 (by simp), ?_⟩
        intro hlen
        have hr : rest.length = lvl - 1 := by
          simp only [List.length_cons] at hlen
          omega
        exact H.2.2.2 hr
      | split :: altRest =>
        rw [popSplitLoop]
        by_cases hc :
          eng.consistentBounds
            (eng.applySplit
              (eng.preContextPushHook (eng.restoreState (eng.postContextPopHook e) snap))
              split) = true
        · simp only [hc, Bool.not_true, Bool.and_false, Bool.false_eq_true, if_false]
          refine ⟨by simp, fun _ => ⟨by simp [hc], ⟨split, altRest, [], snap⟩, rest,
            rfl, rfl⟩, by simp, ?_⟩
          intro hlen
          simp only [List.length_cons] at hlen ⊢
          omega
        · have hmr : smtMeasure ((⟨split, altRest, [], snap⟩ : SmtStackEntry E Split)
              :: rest) ≤ n := by
            simp only [smtMeasure, List.map_cons, List.sum_cons,
              List.length_cons] at hm ⊢
            omega
          simp only [Bool.not_eq_true] at hc
          simp only [hc, Bool.not_false, Bool.and_true, if_true]
          refine ⟨(ihn _ _ _ hmr).1, (ihn _ _ _ hmr).2.1, ?_, ?_⟩
          · refine le_trans (ihn _ _ _ hmr).2.2.1 (by simp)
          · intro hlen
            have hl : ((⟨split, altRest, [], snap⟩ : SmtStackEntry E Split)
                :: rest).length = lvl - 1 + 1 := by
              simp only [List.length_cons] at hlen ⊢
              omega
            exact (ihn _ _ _ hmr).2.2.2 hl

/-- C1: `popSplit` returns false exactly when the stack is or becomes empty;
when it returns true the engine reports consistent bounds after the last
applied alternative, the surviving top frame has its implied valid splits
cleared, and no frames were created. -/
theorem popSplit_spec {E Split C : Type} (eng : IEngine E Split)
    (s : SmtCoreState E Split C) :
    ((popSplit eng s).1 = false ↔ (popSplit eng s).2.stack = []) ∧
    ((popSplit eng s).1 = true →
      eng.consistentBounds (popSplit eng s).2.engine = true ∧
      ∃ top rest, (popSplit eng s).2.stack = top :: rest ∧
        top.impliedValidSplits = []) ∧
    (popSplit eng s).2.stack.length ≤ s.stack.length := by
  rw [popSplit]
  by_cases hs : s.stack.isEmpty = true
  · have hempty : s.stack = [] := List.isEmpty_iff.mp hs
    rw [if_pos hs]
    simp [hempty]
  · rw [if_neg hs]
    have H := popSplitLoop_props eng (smtMeasure s.stack) s.stack s.contextLevel
      s.engine le_rfl
    exact ⟨H.1, H.2.1, H.2.2.1⟩

/-- C7: outside SnC mode the decision-stack depth equals the context level:
`performSplit` pushes one context level per frame it creates, and `popSplit`
pops one level per removed frame and pairs each case advancement's pop with a
fresh push, so both preserve the equality. -/
theorem stackDepth_eq_contextLevel {E Split C : Type} [DecidableEq C]
    (eng : IEngine E Split) (gcs : C → List Split) (s : SmtCoreState E Split C)
    (h : getStackDepth s = s.contextLevel) :
    getStackDepth (performSplit eng gcs s) =
      (performSplit eng gcs s).contextLevel ∧
    getStackDepth (popSplit eng s).2 = (popSplit eng s).2.contextLevel := by
  constructor
  · rw [performSplit]
    rcases hc : s.constraintForSplitting with _ | c
    · exact h
    · dsimp only
      by_cases ha : s.constraintActive c = false
      · rw [if_pos ha]
        exact h
      · rw [if_neg ha]
        rcases hg : gcs c with _ | ⟨first, rest⟩
        · exact h
        · dsimp only
          simp only [getStackDepth, List.length_cons] at h ⊢
          omega
  · rw [popSplit]
    by_cases hs : s.stack.isEmpty = true
    · rw [if_pos hs]
      exact h
    · rw [if_neg hs]
      have H := popSplitLoop_props eng (smtMeasure s.stack) s.stack s.contextLevel
        s.engine le_rfl
      exact H.2.2.2 h

/-- Witness for C7 on a root state with an active candidate, a two-case
split, and an empty stack. -/
theorem stackDepth_eq_contextLevel_witness :
    getStackDepth wActiveState = wActiveState.contextLevel ∧
    (getStackDepth (performSplit trivEngine (fun _ => [true, false]) wActiveState) =
      (performSplit trivEngine (fun _ => [true, false]) wActiveState).contextLevel ∧
     getStackDepth (popSplit trivEngine wActiveState).2 =
      (popSplit trivEngine wActiveState).2.contextLevel) :=
  ⟨rfl, stackDepth_eq_contextLevel trivEngine (fun _ => [true, false]) wActiveState rfl⟩

end Marabou
